import Mathlib

/-!
Verification development for the browser-bot repository.

The definitions below are a shallow embedding of the TypeScript source:

* `StateManager` and its operations embed `src/agent/StateManager.ts`
  (the Progress Tracker of the spec).
* `runLoop` / `browserBotRun` embed the agent loop of
  `src/agent/BrowserBot.ts` (`BrowserBot.run`), with one scripted
  `TurnOutcome` per iteration standing for the result of the `try` block.
* `ResponseTrimmer` functions embed `src/playwright/ResponseTrimmer.ts`
  (the Observation Compressor of the spec), with JavaScript strings
  modelled as `List Char` and every string primitive the code relies on
  (split, trim, includes, the four regexes) defined explicitly below,
  faithful to its JavaScript semantics.

All definitions are executable; theorems at the end of the file settle
the specification claims.
-/

/-- JavaScript strings are modelled as lists of characters. -/
abbrev Str := List Char

/-- `String` literal to `Str` conversion, used to write the fixed strings of
the source compactly. -/
def strL (s : String) : Str := s.data

/-! ## Progress Tracker: `src/agent/StateManager.ts` -/

/-- `ExitReason` from `src/types/Agent.ts`:
`'success' | 'max_steps' | 'max_failures' | 'user_interrupt' | 'error'`. -/
inductive ExitReason where
  | success
  | max_steps
  | max_failures
  | user_interrupt
  | error
deriving DecidableEq, Repr

/-- `AgentState` as held by the `StateManager` (counters are JavaScript
numbers that are only ever 0-initialised and incremented, hence `Nat`). -/
structure AgentState where
  currentStep : Nat
  maxSteps : Nat
  consecutiveFailures : Nat
  isDone : Bool
  shouldStop : Bool
deriving DecidableEq, Repr

/-- `StateManagerConfig`: both fields optional in the source. -/
structure StateManagerConfig where
  maxSteps : Option Nat
  maxConsecutiveFailures : Option Nat
deriving DecidableEq, Repr

/-- The `StateManager` class: its mutable `state` plus the immutable
threshold `maxConsecutiveFailures`. -/
structure StateManager where
  state : AgentState
  maxConsecutiveFailures : Nat
deriving DecidableEq, Repr

/-- The constructor: `maxConsecutiveFailures ?? 3`, `maxSteps ?? 100`,
counters zero, flags false. -/
def StateManager.create (config : StateManagerConfig) : StateManager :=
  { maxConsecutiveFailures := config.maxConsecutiveFailures.getD 3
    state :=
      { currentStep := 0
        maxSteps := config.maxSteps.getD 100
        consecutiveFailures := 0
        isDone := false
        shouldStop := false } }

/-- `nextStep(): this.state.currentStep++`. -/
def StateManager.nextStep (sm : StateManager) : StateManager :=
  { sm with state := { sm.state with currentStep := sm.state.currentStep + 1 } }

/-- `recordSuccess(): this.state.consecutiveFailures = 0`. -/
def StateManager.recordSuccess (sm : StateManager) : StateManager :=
  { sm with state := { sm.state with consecutiveFailures := 0 } }

/-- `recordFailure()`: increment the counter, and set `shouldStop` when it
reaches `maxConsecutiveFailures` (the flag is only ever set, never cleared). -/
def StateManager.recordFailure (sm : StateManager) : StateManager :=
  let cf := sm.state.consecutiveFailures + 1
  let stop := if sm.maxConsecutiveFailures ≤ cf then true else sm.state.shouldStop
  { sm with state := { sm.state with consecutiveFailures := cf, shouldStop := stop } }

/-- `markComplete(): isDone = true; shouldStop = true`. -/
def StateManager.markComplete (sm : StateManager) : StateManager :=
  { sm with state := { sm.state with isDone := true, shouldStop := true } }

/-- `markFailed(): shouldStop = true`. -/
def StateManager.markFailed (sm : StateManager) : StateManager :=
  { sm with state := { sm.state with shouldStop := true } }

/-- `shouldContinue()`: false on `shouldStop`, on `isDone`, or once
`currentStep >= maxSteps`. -/
def StateManager.shouldContinue (sm : StateManager) : Bool :=
  if sm.state.shouldStop then false
  else if sm.state.isDone then false
  else if sm.state.maxSteps ≤ sm.state.currentStep then false
  else true

/-- `isLastStep(): currentStep >= maxSteps - 1` (JavaScript subtraction,
hence computed in `Int`). -/
def StateManager.isLastStep (sm : StateManager) : Bool :=
  decide ((sm.state.maxSteps : Int) - 1 ≤ (sm.state.currentStep : Int))

/-- `getExitReason()` with the source's cascade of early returns. -/
def StateManager.getExitReason (sm : StateManager) : ExitReason :=
  if sm.state.isDone then .success
  else if sm.maxConsecutiveFailures ≤ sm.state.consecutiveFailures then .max_failures
  else if sm.state.maxSteps ≤ sm.state.currentStep then .max_steps
  else if sm.state.shouldStop then .error
  else .success

/-- `getConsecutiveFailures()`. -/
def StateManager.getConsecutiveFailures (sm : StateManager) : Nat :=
  sm.state.consecutiveFailures

/-- `getCurrentStep()`. -/
def StateManager.getCurrentStep (sm : StateManager) : Nat :=
  sm.state.currentStep

/-- `getMaxSteps()`. -/
def StateManager.getMaxSteps (sm : StateManager) : Nat :=
  sm.state.maxSteps

/-- The spec's own wording of §4.1 `exitReason()`, written independently of
the source for the refinement claim C2: priority order `isDone` → success;
else `consecutiveFailures >= threshold` → max_failures; else
`currentStep >= maxSteps` → max_steps; else `shouldStop` → error;
else success. -/
def exitReasonSpec (s : AgentState) (threshold : Nat) : ExitReason :=
  if s.isDone then .success
  else if s.consecutiveFailures ≥ threshold then .max_failures
  else if s.currentStep ≥ s.maxSteps then .max_steps
  else if s.shouldStop then .error
  else .success

/-- The pure advance loop of claim C3: repeatedly `nextStep` while
`shouldContinue()`, with a fuel argument bounding the number of
iterations examined. -/
def advanceLoop (sm : StateManager) : Nat → StateManager
  | 0 => sm
  | fuel + 1 => if sm.shouldContinue then advanceLoop sm.nextStep fuel else sm

/-- `n` successive `recordFailure()` calls. -/
def applyFailures : Nat → StateManager → StateManager
  | 0, sm => sm
  | n + 1, sm => applyFailures n sm.recordFailure

/-! ## Agent loop: `src/agent/BrowserBot.ts` -/

/-- What one iteration's `try` block amounts to for the state machine:
the parsed verdict said complete, said failed, said neither
(`recordSuccess` and continue), or the turn threw (`catch` path). -/
inductive TurnOutcome where
  | completes
  | failsVerdict
  | continues
  | raisesError
deriving DecidableEq, Repr

/-- `RunOptions` from `src/types/Agent.ts` (the fields `BrowserBot.run`
reads). -/
structure RunOptions where
  maxSteps : Option Nat
  maxFailures : Option Nat
deriving DecidableEq, Repr

/-- The fields of `TaskResult` that the state machine determines
(`message` is reproduced below; `conversationHistory` is provider state
outside this embedding). -/
structure TaskResult where
  success : Bool
  message : Str
  stepsTaken : Nat
  exitReason : ExitReason
deriving DecidableEq, Repr

/-- The `while (this.stateManager.shouldContinue())` loop of
`BrowserBot.run`, one scripted `TurnOutcome` per iteration.
The `raisesError` arm mirrors the `catch` block: `recordFailure()`, then
break when `getConsecutiveFailures() >= (options?.maxFailures ?? 3)`. -/
def runLoop (maxFailures : Nat) (sm : StateManager) : List TurnOutcome → StateManager
  | [] => sm
  | o :: rest =>
    if sm.shouldContinue then
      let sm1 := sm.nextStep
      match o with
      | .completes => sm1.markComplete
      | .failsVerdict => sm1.markFailed
      | .continues => runLoop maxFailures sm1.recordSuccess rest
      | .raisesError =>
        let sm2 := sm1.recordFailure
        if maxFailures ≤ sm2.getConsecutiveFailures then sm2
        else runLoop maxFailures sm2 rest
    else sm

/-- `BrowserBot.run` sets up the `StateManager`: the constructor default,
replaced by `new StateManager({ maxSteps: options.maxSteps })` only when
`options?.maxSteps` is truthy. Note that `options.maxFailures` is never
passed to the `StateManager`. -/
def initialStateManager (options : RunOptions) : StateManager :=
  match options.maxSteps with
  | some m =>
    if m ≠ 0 then StateManager.create { maxSteps := some m, maxConsecutiveFailures := none }
    else StateManager.create { maxSteps := none, maxConsecutiveFailures := none }
  | none => StateManager.create { maxSteps := none, maxConsecutiveFailures := none }

/-- The string each `ExitReason` value is in the source (`ExitReason` is a
union of string literals in `src/types/Agent.ts`). -/
def exitReasonStr : ExitReason → Str
  | .success => strL "success"
  | .max_steps => strL "max_steps"
  | .max_failures => strL "max_failures"
  | .user_interrupt => strL "user_interrupt"
  | .error => strL "error"

/-- `buildResult`: `success = state.isDone`, `stepsTaken = state.currentStep`,
`exitReason = getExitReason()`, and the message chosen by comparing
`exitReason` with `'success'`, the stopped branch interpolating the
reason. -/
def buildResult (sm : StateManager) : TaskResult :=
  let exitReason := sm.getExitReason
  { success := sm.state.isDone
    message :=
      if exitReason = .success then strL "Task completed successfully"
      else strL "Task stopped: " ++ exitReasonStr exitReason
    stepsTaken := sm.state.currentStep
    exitReason := exitReason }

/-- `BrowserBot.run` end to end on a script of turn outcomes. -/
def browserBotRun (options : RunOptions) (script : List TurnOutcome) : TaskResult :=
  buildResult (runLoop (options.maxFailures.getD 3) (initialStateManager options) script)

/-! ## String primitives (JavaScript semantics over `List Char`) -/

/-- The whitespace class of JavaScript `\s` and `trim` (the characters that
can occur in this pipeline). -/
def jsWS (c : Char) : Bool :=
  c = ' ' || c = '\t' || c = '\n' || c = '\r' || c = '\x0b' || c = '\x0c'

/-- JavaScript `\w` word characters. -/
def isWordChar (c : Char) : Bool := c.isAlphanum || c = '_'

/-- Head-character test for a character class given as a predicate-free
single character. -/
def headIs (c : Char) : Str → Bool
  | [] => false
  | d :: _ => d = c

/-- Remove a trailing run of whitespace. -/
def dropTrailingWS : Str → Str
  | [] => []
  | c :: rest =>
    let r := dropTrailingWS rest
    if r = [] && jsWS c then [] else c :: r

/-- JavaScript `String.prototype.trim`. -/
def trimStr (s : Str) : Str := dropTrailingWS (s.dropWhile jsWS)

/-- JavaScript `yamlText.split('\n')`. -/
def splitLines : Str → List Str
  | [] => [[]]
  | c :: rest =>
    if c = '\n' then [] :: splitLines rest
    else
      match splitLines rest with
      | [] => [[c]]
      | l :: ls => (c :: l) :: ls

/-- JavaScript `String.prototype.includes` (all patterns used are
non-empty). -/
def containsSub (pat : Str) : Str → Bool
  | [] => pat.isPrefixOf []
  | s@(_ :: rest) => pat.isPrefixOf s || containsSub pat rest

/-- The suffix after the first occurrence of `pat`, when there is one. -/
def afterFirst (pat : Str) : Str → Option Str
  | [] => none
  | s@(_ :: rest) =>
    if pat.isPrefixOf s then some (s.drop pat.length) else afterFirst pat rest

/-- The prefix before the next occurrence of `pat` (the whole string when
`pat` does not occur again). -/
def upToFirst (pat : Str) : Str → Str
  | [] => []
  | s@(c :: rest) => if pat.isPrefixOf s then [] else c :: upToFirst pat rest

/-- `line.split(pat)[1]?.trim() || ''` as the header extraction evaluates
it: the segment between the first and second occurrence of `pat`,
trimmed, empty when there is no occurrence. -/
def part1Trimmed (pat : Str) (line : Str) : Str :=
  match afterFirst pat line with
  | some suffix => trimStr (upToFirst pat suffix)
  | none => []

/-- JavaScript `toLowerCase` (every character compared is ASCII). -/
def toLowerStr (s : Str) : Str := s.map Char.toLower

/-! ## Observation Compressor: `src/playwright/ResponseTrimmer.ts` -/

/-- The match of the role regex (dash, at least one whitespace character,
then the captured run of word characters, anchored at the start). -/
def parseRole (s : Str) : Option Str :=
  match s with
  | [] => none
  | c :: rest =>
    if c = '-' then
      match rest with
      | [] => none
      | c2 :: _ =>
        if jsWS c2 then
          let w := (rest.dropWhile jsWS).takeWhile isWordChar
          if w = [] then none else some w
        else none
    else none

/-- The capture of the first quoted-name match: scanning left to right, a
quote followed by a non-empty run of non-quote characters and a closing
quote. -/
def findQuoted : Str → Option Str
  | [] => none
  | c :: rest =>
    if c = '"' then
      let run := rest.takeWhile (fun d => d ≠ '"')
      if !run.isEmpty && !(rest.drop run.length).isEmpty then some run
      else findQuoted rest
    else findQuoted rest

/-- The capture of the first reference-id match: the literal `[ref=`, the
captured run of word characters, then `]`. -/
def findRef : Str → Option Str
  | [] => none
  | s@(_ :: rest) =>
    if (strL "[ref=").isPrefixOf s then
      let t := s.drop 5
      let w := t.takeWhile isWordChar
      if !w.isEmpty && headIs ']' (t.drop w.length) then some w
      else findRef rest
    else findRef rest

/-- The candidate capture region after a `/url:` match: the literal
skipped, then any whitespace, then one optional opening quote. -/
def urlTail (s : Str) : Str :=
  if headIs '"' ((s.drop 5).dropWhile jsWS) then ((s.drop 5).dropWhile jsWS).drop 1
  else (s.drop 5).dropWhile jsWS

/-- The capture of the first target-url match: the literal `/url:`, any
whitespace, an optional quote, then the captured non-empty run of
characters that are neither whitespace nor a quote. -/
def findUrl : Str → Option Str
  | [] => none
  | s@(_ :: rest) =>
    if (strL "/url:").isPrefixOf s then
      if !((urlTail s).takeWhile (fun d => !jsWS d && d ≠ '"')).isEmpty then
        some ((urlTail s).takeWhile (fun d => !jsWS d && d ≠ '"'))
      else findUrl rest
    else findUrl rest

/-- The element record `parseYAMLLine` produces (its constant `type` field
`'element'` is omitted; empty `Str` stands for the source's `''`). -/
structure YAMLElement where
  role : Str
  name : Str
  ref : Str
  url : Str
  visible : Bool
deriving DecidableEq, Repr

/-- `parseYAMLLine`: `null` when the role regex does not match, otherwise
the element with each capture defaulted to `''`, and `visible` the absence
of the `(hidden)` marker. -/
def parseYAMLLine (line : Str) : Option YAMLElement :=
  match parseRole line with
  | none => none
  | some role =>
    some
      { role := role
        name := (findQuoted line).getD []
        ref := (findRef line).getD []
        url := (findUrl line).getD []
        visible := !containsSub (strL "(hidden)") line }

/-- `SKIP_ROLES`. -/
def SKIP_ROLES : List Str :=
  [strL "separator", strL "none", strL "presentation", strL "generic"]

/-- `INTERACTIVE_ROLES`. -/
def INTERACTIVE_ROLES : List Str :=
  [strL "button", strL "link", strL "textbox", strL "searchbox", strL "combobox",
   strL "listbox", strL "checkbox", strL "radio", strL "tab", strL "menuitem",
   strL "option", strL "slider", strL "spinbutton"]

/-- `SKIP_NAVIGATION_KEYWORDS`. -/
def SKIP_NAVIGATION_KEYWORDS : List Str :=
  [strL "skip to", strL "skip navigation", strL "keyboard shortcuts", strL "accessibility"]

/-- `isInteractive`: hidden elements dropped; interactive roles kept;
skip-listed roles dropped; elements with a url kept; elements whose name
is longer than 2 characters kept; everything else dropped. -/
def isInteractive (e : YAMLElement) : Bool :=
  if !e.visible then false
  else if !e.role.isEmpty && INTERACTIVE_ROLES.contains e.role then true
  else if !e.role.isEmpty && SKIP_ROLES.contains e.role then false
  else if !e.url.isEmpty then true
  else if !e.name.isEmpty && decide (2 < e.name.length) then true
  else false

/-- JavaScript `Array.prototype.join(sep)`. -/
def joinWith (sep : Str) : List Str → Str
  | [] => []
  | [p] => p
  | p :: q :: rest => p ++ sep ++ joinWith sep (q :: rest)

/-- `formatElement`: `null` without a ref, otherwise the space-joined parts
`[ref]`, the role, the quoted name, and the arrow-prefixed url, each of
the last three only when non-empty. -/
def formatElement (e : YAMLElement) : Option Str :=
  if e.ref.isEmpty then none
  else
    some (joinWith (strL " ")
      ([strL "[" ++ e.ref ++ strL "]"]
        ++ (if !e.role.isEmpty then [e.role] else [])
        ++ (if !e.name.isEmpty then [strL "\"" ++ e.name ++ strL "\""] else [])
        ++ (if !e.url.isEmpty then [strL "→ " ++ e.url] else [])))

/-- `getIndentLevel`: spaces count 1, tabs count 2, stop at the first other
character. -/
def getIndentLevel : Str → Nat
  | [] => 0
  | c :: rest =>
    if c = ' ' then getIndentLevel rest + 1
    else if c = '\t' then getIndentLevel rest + 2
    else 0

/-- The metadata prefixes skipped inside the body loop. -/
def isMetaLine (t : Str) : Bool :=
  (strL "URL:").isPrefixOf t || (strL "Title:").isPrefixOf t
    || (strL "Page Loaded:").isPrefixOf t

/-- A line whose lowercase form contains a skip-navigation keyword. -/
def hasSkipKeyword (t : Str) : Bool :=
  SKIP_NAVIGATION_KEYWORDS.any (fun k => containsSub k (toLowerStr t))

/-- The body loop of `trimYAMLSnapshot`: the emitted element entries, with
the skip-section state (`inSkipSection`, `skipDepth`) threaded through.
Indentation is taken on the raw line, every other check on its trim. -/
def processLines (skip : Bool) (d : Nat) : List Str → List Str
  | [] => []
  | line :: rest =>
    let t := trimStr line
    if t.isEmpty then processLines skip d rest
    else if isMetaLine t then processLines skip d rest
    else if hasSkipKeyword t then processLines true (getIndentLevel line) rest
    else if skip && decide (d < getIndentLevel line) then processLines skip d rest
    else
      match parseYAMLLine t with
      | none => processLines false d rest
      | some e =>
        if isInteractive e then
          match formatElement e with
          | some f => f :: processLines false d rest
          | none => processLines false d rest
        else processLines false d rest

/-- The header loop over the first `min(10, lines.length)` lines: a line
containing `URL:` overwrites `url`, otherwise one containing `Title:`
overwrites `title`. -/
def extractHeaders : List Str → Str × Str → Str × Str
  | [], acc => acc
  | line :: rest, acc =>
    if containsSub (strL "URL:") line then
      extractHeaders rest (part1Trimmed (strL "URL:") line, acc.2)
    else if containsSub (strL "Title:") line then
      extractHeaders rest (acc.1, part1Trimmed (strL "Title:") line)
    else extractHeaders rest acc

/-- Decimal digit characters for the count interpolation. -/
def digitChar (d : Nat) : Char :=
  if d = 0 then '0' else if d = 1 then '1' else if d = 2 then '2'
  else if d = 3 then '3' else if d = 4 then '4' else if d = 5 then '5'
  else if d = 6 then '6' else if d = 7 then '7' else if d = 8 then '8'
  else if d = 9 then '9' else '*'

/-- Decimal rendering of a count, with structural fuel. -/
def natToStrGo : Nat → Nat → Str → Str
  | 0, _, acc => acc
  | fuel + 1, n, acc =>
    if n < 10 then digitChar n :: acc
    else natToStrGo fuel (n / 10) (digitChar (n % 10) :: acc)

/-- JavaScript template interpolation of the count. -/
def natToStr (n : Nat) : Str := natToStrGo (n + 1) n []

/-- The fixed banner line of the output. -/
def bannerLine : Str :=
  strL "Interactive Elements (use ref value without brackets for Playwright tools):"

/-- The element entries `trimYAMLSnapshot` emits for an input. -/
def snapshotEntries (x : Str) : List Str := processLines false 0 (splitLines x)

/-- The output lines of `trimYAMLSnapshot` before the count line is
appended: headers when non-empty, blank, banner, blank, the entries, and a
final blank. -/
def outputPrefix (x : Str) : List Str :=
  let lines := splitLines x
  let hdr := extractHeaders (lines.take 10) ([], [])
  (if !hdr.1.isEmpty then [strL "URL: " ++ hdr.1] else [])
    ++ (if !hdr.2.isEmpty then [strL "Title: " ++ hdr.2] else [])
    ++ [[], bannerLine, []] ++ snapshotEntries x ++ [[]]

/-- `trimYAMLSnapshot`: the output lines joined by newlines, ending with
the count of lines starting with `[`. -/
def trimYAMLSnapshot (x : Str) : Str :=
  let pre := outputPrefix x
  let count := (pre.filter (fun l => headIs '[' l)).length
  joinWith (strL "\n") (pre ++ [strL "Total interactive elements: " ++ natToStr count])

/-- An item of the response array handed to `trimSnapshot`:
* `nullish` — a `null` or `undefined` element, on which the loop's
  unguarded `item.type` access throws a TypeError;
* `text s` — an item with `type === 'text'` whose `text` field is the
  string `s`;
* `textTruthyNonString` — an item with `type === 'text'` whose `text`
  field is truthy but not a string, so the branch is taken and
  `trimYAMLSnapshot`'s `.split('\n')` throws a TypeError;
* `other` — any other element (including text items with a falsy
  non-string `text`), passed through untouched. -/
inductive SnapItem where
  | nullish
  | text (s : Str)
  | textTruthyNonString (tag : Nat)
  | other (tag : Nat)
deriving DecidableEq, Repr

/-- The `trimSnapshot` argument: `null`/`undefined`, some non-array value,
or an array of items. -/
inductive SnapResponse where
  | null
  | notArray (tag : Nat)
  | arr (items : List SnapItem)
deriving DecidableEq, Repr

/-- A thrown JavaScript exception (the only kind this code path can
raise). -/
inductive JsError where
  | typeError
deriving DecidableEq, Repr

/-- The push loop inside `trimSnapshot`: a nullish element throws on the
`item.type` access, a text item with a truthy non-string `text` throws
inside `trimYAMLSnapshot` on `.split`, and the error propagates out of
the entry point. -/
def trimSnapshotLoop (acc : List SnapItem) : List SnapItem → Except JsError (List SnapItem)
  | [] => Except.ok acc
  | item :: rest =>
    match item with
    | .nullish => Except.error JsError.typeError
    | .text s =>
      if !s.isEmpty then trimSnapshotLoop (acc ++ [SnapItem.text (trimYAMLSnapshot s)]) rest
      else trimSnapshotLoop (acc ++ [SnapItem.text s]) rest
    | .textTruthyNonString _ => Except.error JsError.typeError
    | .other tag => trimSnapshotLoop (acc ++ [SnapItem.other tag]) rest

/-- `trimSnapshot`: non-arrays (and `null`) pass through unchanged; in an
array, each text item with non-empty string text is replaced by a text
item holding the trimmed text, everything else passes through — unless an
element makes the loop throw, in which case the TypeError escapes the
entry point. -/
def trimSnapshot : SnapResponse → Except JsError SnapResponse
  | .null => Except.ok .null
  | .notArray tag => Except.ok (.notArray tag)
  | .arr items => (trimSnapshotLoop [] items).map SnapResponse.arr

/-- A well-formed item: one on which the loop body cannot throw (not
nullish, and not a text item with a truthy non-string `text`). -/
def wellFormedItem : SnapItem → Bool
  | .nullish => false
  | .textTruthyNonString _ => false
  | _ => true

/-- The per-item transformation the `trimSnapshot` loop applies to
well-formed items, named for the frame property of claim C10: text items
with non-empty text are replaced by the trimmed text item, everything
else passes through. -/
def trimItem : SnapItem → SnapItem
  | .text s => if !s.isEmpty then SnapItem.text (trimYAMLSnapshot s) else SnapItem.text s
  | item => item

/-- The claim-C4 property of one tracker operation: the three §3
invariants are preserved — `shouldStop` is never reset, `isDone` implying
`shouldStop` is preserved, and `currentStep` never decreases. -/
def PreservesInvariants (f : StateManager → StateManager) : Prop :=
  ∀ sm : StateManager,
    (sm.state.shouldStop = true → (f sm).state.shouldStop = true)
    ∧ ((sm.state.isDone = true → sm.state.shouldStop = true) →
        ((f sm).state.isDone = true → (f sm).state.shouldStop = true))
    ∧ sm.state.currentStep ≤ (f sm).state.currentStep

/-! ## Theorems -/

/-- Claim C2: for every tracker state and configured failure threshold,
`getExitReason()` computes exactly the spec's priority order (`isDone` →
success; else failure threshold reached → max_failures; else step budget
exhausted → max_steps; else `shouldStop` → error; else success), stated
as a refinement of the independently written `exitReasonSpec`. -/
theorem getExitReason_refines_spec :
    ∀ sm : StateManager,
      sm.getExitReason = exitReasonSpec sm.state sm.maxConsecutiveFailures := by
  intro sm
  rfl

/-- Claim C6, counterexample: a tracker with `maxSteps = 1` that has taken
its one step (a reachable state) has `isLastStep()` true while
`currentStep` is not `maxSteps - 1` — the source compares with `>=`, not
equality. -/
theorem isLastStep_iff_eq_counterexample :
    ((StateManager.create { maxSteps := some 1, maxConsecutiveFailures := none }).nextStep.isLastStep = true)
    ∧ ¬((StateManager.create { maxSteps := some 1, maxConsecutiveFailures := none }).nextStep.state.currentStep
        = (StateManager.create { maxSteps := some 1, maxConsecutiveFailures := none }).nextStep.state.maxSteps - 1) := by
  decide

/-- Claim C6 as amended: for every tracker state, `isLastStep()` returns
true if and only if `currentStep >= maxSteps - 1` (JavaScript
subtraction, taken in `Int`). -/
theorem isLastStep_iff_ge :
    ∀ sm : StateManager,
      sm.isLastStep = true ↔ (sm.state.maxSteps : Int) - 1 ≤ (sm.state.currentStep : Int) := by
  intro sm
  simp [StateManager.isLastStep]

/-- Claim C4: each of the five tracker operations `nextStep`,
`recordSuccess`, `recordFailure`, `markComplete`, `markFailed` preserves
the three state invariants (monotone `shouldStop`, `isDone` implies
`shouldStop`, non-decreasing `currentStep`). -/
theorem stateManager_ops_preserve_invariants :
    PreservesInvariants StateManager.nextStep
    ∧ PreservesInvariants StateManager.recordSuccess
    ∧ PreservesInvariants StateManager.recordFailure
    ∧ PreservesInvariants StateManager.markComplete
    ∧ PreservesInvariants StateManager.markFailed := by
  refine ⟨?_, ?_, ?_, ?_, ?_⟩ <;> intro sm <;>
    rcases sm with ⟨⟨cs, ms, cf, dn, st⟩, th⟩
  · exact ⟨fun h => h, fun h => h, Nat.le_succ cs⟩
  · exact ⟨fun h => h, fun h => h, Nat.le_refl cs⟩
  · refine ⟨?_, ?_, Nat.le_refl cs⟩ <;>
      simp only [StateManager.recordFailure] <;> intros <;> split <;> simp_all
  · exact ⟨fun _ => rfl, fun _ _ => rfl, Nat.le_refl cs⟩
  · exact ⟨fun _ => rfl, fun _ _ => rfl, Nat.le_refl cs⟩

/-- Claim C4, witness: instantiating the invariant-preservation theorem at
a concrete tracker on which `markFailed` has set `shouldStop`,
`markComplete` keeps the flag set. -/
theorem stateManager_ops_preserve_invariants_witness :
    ((StateManager.create { maxSteps := some 5, maxConsecutiveFailures := none }).markFailed.markComplete).state.shouldStop = true := by
  have h := stateManager_ops_preserve_invariants.2.2.2.1
    (StateManager.create { maxSteps := some 5, maxConsecutiveFailures := none }).markFailed
  exact h.1 (by decide)


/-- Helper for claim C3: with enough fuel, the advance-only loop on a
tracker that is not stopped and not done drives `currentStep` up to
`maxSteps` (or leaves it if already past) and changes nothing else. -/
theorem advanceLoop_eq (fuel : Nat) :
    ∀ sm : StateManager, sm.state.shouldStop = false → sm.state.isDone = false →
      sm.state.maxSteps ≤ sm.state.currentStep + fuel →
      advanceLoop sm fuel =
        { state := { sm.state with currentStep := max sm.state.currentStep sm.state.maxSteps }
          maxConsecutiveFailures := sm.maxConsecutiveFailures } := by
  induction fuel with
  | zero =>
    rintro ⟨⟨cs, ms, cf, dn, st⟩, th⟩ h1 h2 h3
    simp only at h1 h2 h3
    subst h1; subst h2
    simp only [advanceLoop, StateManager.mk.injEq, AgentState.mk.injEq, and_true, true_and]
    omega
  | succ fuel ih =>
    rintro ⟨⟨cs, ms, cf, dn, st⟩, th⟩ h1 h2 h3
    simp only at h1 h2 h3
    subst h1; subst h2
    by_cases hms : ms ≤ cs
    · have hsc : StateManager.shouldContinue ⟨⟨cs, ms, cf, false, false⟩, th⟩ = false := by
        simp [StateManager.shouldContinue, hms]
      simp only [advanceLoop, hsc, Bool.false_eq_true, if_false, StateManager.mk.injEq,
        AgentState.mk.injEq, and_true, true_and]
      omega
    · have hsc : StateManager.shouldContinue ⟨⟨cs, ms, cf, false, false⟩, th⟩ = true := by
        simp [StateManager.shouldContinue, hms]
      have hnext := ih (StateManager.nextStep ⟨⟨cs, ms, cf, false, false⟩, th⟩) rfl rfl
        (by simp only [StateManager.nextStep]; omega)
      simp only [advanceLoop, hsc, if_true]
      rw [hnext]
      simp only [StateManager.nextStep, StateManager.mk.injEq, AgentState.mk.injEq,
        and_true, true_and]
      omega

/-- Claim C3: for every `maxSteps = m >= 1`, a tracker on which only
`nextStep` is ever called, driven while `shouldContinue()` holds (any
fuel of at least `m` iterations suffices for the loop to stop), ends
with `currentStep` exactly `m`, the loop condition false, and
`getExitReason() = max_steps`. -/
theorem advance_only_tracker_stops_at_max_steps (m fuel : Nat) (h1 : 1 ≤ m) (h2 : m ≤ fuel) :
    ((advanceLoop (StateManager.create { maxSteps := some m, maxConsecutiveFailures := none }) fuel).state.currentStep = m)
    ∧ ((advanceLoop (StateManager.create { maxSteps := some m, maxConsecutiveFailures := none }) fuel).shouldContinue = false)
    ∧ ((advanceLoop (StateManager.create { maxSteps := some m, maxConsecutiveFailures := none }) fuel).getExitReason = ExitReason.max_steps) := by
  have heq := advanceLoop_eq fuel
    (StateManager.create { maxSteps := some m, maxConsecutiveFailures := none })
    rfl rfl (by simp [StateManager.create]; omega)
  rw [heq]
  simp only [StateManager.create, StateManager.shouldContinue, StateManager.getExitReason,
    Option.getD]
  refine ⟨by omega, by simp, by simp⟩

/-- Claim C3, witness: the advance-only run with `maxSteps = 2` stops at
step 2 with exit reason `max_steps`. -/
theorem advance_only_tracker_stops_at_max_steps_witness :
    ((advanceLoop (StateManager.create { maxSteps := some 2, maxConsecutiveFailures := none }) 2).state.currentStep = 2)
    ∧ ((advanceLoop (StateManager.create { maxSteps := some 2, maxConsecutiveFailures := none }) 2).shouldContinue = false)
    ∧ ((advanceLoop (StateManager.create { maxSteps := some 2, maxConsecutiveFailures := none }) 2).getExitReason = ExitReason.max_steps) :=
  advance_only_tracker_stops_at_max_steps 2 2 (by decide) (by decide)

/-- Helper for claim C5: the exact effect of one `recordFailure()` on the
fields, with the flag characterised as old flag or threshold reached. -/
theorem recordFailure_fields (sm : StateManager) :
    (sm.recordFailure).state.consecutiveFailures = sm.state.consecutiveFailures + 1
    ∧ (sm.recordFailure).state.currentStep = sm.state.currentStep
    ∧ (sm.recordFailure).state.maxSteps = sm.state.maxSteps
    ∧ (sm.recordFailure).state.isDone = sm.state.isDone
    ∧ (sm.recordFailure).maxConsecutiveFailures = sm.maxConsecutiveFailures
    ∧ ((sm.recordFailure).state.shouldStop = true ↔
        (sm.state.shouldStop = true
          ∨ sm.maxConsecutiveFailures ≤ sm.state.consecutiveFailures + 1)) := by
  refine ⟨rfl, rfl, rfl, rfl, rfl, ?_⟩
  rcases sm with ⟨⟨cs, ms, cf, dn, st⟩, th⟩
  simp only [StateManager.recordFailure]
  split <;> simp_all

/-- Helper for claim C5: the effect of `n` successive `recordFailure()`
calls: the counter grows by `n`, nothing else changes, and the stop flag
ends set exactly when it started set or the threshold was reached along
the way (equivalently, by the end). -/
theorem applyFailures_fields (n : Nat) :
    ∀ sm : StateManager,
      (applyFailures n sm).state.consecutiveFailures = sm.state.consecutiveFailures + n
      ∧ (applyFailures n sm).state.currentStep = sm.state.currentStep
      ∧ (applyFailures n sm).state.maxSteps = sm.state.maxSteps
      ∧ (applyFailures n sm).state.isDone = sm.state.isDone
      ∧ (applyFailures n sm).maxConsecutiveFailures = sm.maxConsecutiveFailures
      ∧ ((applyFailures n sm).state.shouldStop = true ↔
          (sm.state.shouldStop = true
            ∨ (1 ≤ n ∧ sm.maxConsecutiveFailures ≤ sm.state.consecutiveFailures + n))) := by
  induction n with
  | zero =>
    intro sm
    simp [applyFailures]
  | succ n ih =>
    intro sm
    have hrec := recordFailure_fields sm
    have hih := ih sm.recordFailure
    obtain ⟨r1, r2, r3, r4, r5, r6⟩ := hrec
    obtain ⟨i1, i2, i3, i4, i5, i6⟩ := hih
    simp only [applyFailures]
    refine ⟨by omega, by omega, by omega, by rw [i4, r4], by rw [i5, r5], ?_⟩
    rw [i6, r6, r1, r5]
    constructor
    · rintro (h | h) 
      · rcases h with h | h
        · exact Or.inl h
        · exact Or.inr ⟨by omega, by omega⟩
      · exact Or.inr ⟨by omega, by omega⟩
    · rintro (h | ⟨hn, hth⟩)
      · exact Or.inl (Or.inl h)
      · by_cases hz : n = 0
        · subst hz
          exact Or.inl (Or.inr (by omega))
        · exact Or.inr ⟨by omega, by omega⟩

/-- Claim C5: on a tracker configured with failure threshold `t >= 1`,
`t` consecutive `recordFailure()` calls set `shouldStop` and make
`getExitReason() = max_failures`, while `recordSuccess` resets the
counter to 0, so `t-1` failures, one success, then `t-1` more failures
never set `shouldStop`. -/
theorem failure_threshold_behaviour (t : Nat) (ht : 1 ≤ t) :
    ((applyFailures t (StateManager.create { maxSteps := none, maxConsecutiveFailures := some t })).state.shouldStop = true)
    ∧ ((applyFailures t (StateManager.create { maxSteps := none, maxConsecutiveFailures := some t })).getExitReason = ExitReason.max_failures)
    ∧ ((applyFailures (t - 1) (StateManager.create { maxSteps := none, maxConsecutiveFailures := some t })).state.shouldStop = false)
    ∧ (((applyFailures (t - 1) (StateManager.create { maxSteps := none, maxConsecutiveFailures := some t })).recordSuccess).state.consecutiveFailures = 0)
    ∧ ((applyFailures (t - 1) ((applyFailures (t - 1) (StateManager.create { maxSteps := none, maxConsecutiveFailures := some t })).recordSuccess)).state.shouldStop = false) := by
  have hbase :
      (StateManager.create { maxSteps := none, maxConsecutiveFailures := some t }).state.consecutiveFailures = 0
      ∧ (StateManager.create { maxSteps := none, maxConsecutiveFailures := some t }).state.isDone = false
      ∧ (StateManager.create { maxSteps := none, maxConsecutiveFailures := some t }).state.shouldStop = false
      ∧ (StateManager.create { maxSteps := none, maxConsecutiveFailures := some t }).maxConsecutiveFailures = t := by
    simp [StateManager.create]
  obtain ⟨b1, b2, b3, b4⟩ := hbase
  obtain ⟨a1, a2, a3, a4, a5, a6⟩ := applyFailures_fields t
    (StateManager.create { maxSteps := none, maxConsecutiveFailures := some t })
  obtain ⟨c1, c2, c3, c4, c5, c6⟩ := applyFailures_fields (t - 1)
    (StateManager.create { maxSteps := none, maxConsecutiveFailures := some t })
  have hstop : (applyFailures t (StateManager.create { maxSteps := none, maxConsecutiveFailures := some t })).state.shouldStop = true := by
    rw [a6, b3, b1, b4]
    simp
    omega
  have hs1 : (applyFailures (t - 1) (StateManager.create { maxSteps := none, maxConsecutiveFailures := some t })).state.shouldStop = false := by
    rcases hb : (applyFailures (t - 1) (StateManager.create { maxSteps := none, maxConsecutiveFailures := some t })).state.shouldStop with _ | _
    · rfl
    · exfalso
      have := c6.mp hb
      rw [b3, b1, b4] at this
      rcases this with h | ⟨h1, h2⟩
      · exact Bool.false_ne_true h
      · omega
  refine ⟨hstop, ?_, hs1, ?_, ?_⟩
  · rw [StateManager.getExitReason.eq_def]
    rw [a4, b2, a5, b4, a1, b1]
    simp
  · simp [StateManager.recordSuccess]
  · obtain ⟨d1, d2, d3, d4, d5, d6⟩ := applyFailures_fields (t - 1)
      ((applyFailures (t - 1) (StateManager.create { maxSteps := none, maxConsecutiveFailures := some t })).recordSuccess)
    rcases hb : (applyFailures (t - 1) ((applyFailures (t - 1) (StateManager.create { maxSteps := none, maxConsecutiveFailures := some t })).recordSuccess)).state.shouldStop with _ | _
    · rfl
    · exfalso
      have := d6.mp hb
      have hcs : ((applyFailures (t - 1) (StateManager.create { maxSteps := none, maxConsecutiveFailures := some t })).recordSuccess).state.consecutiveFailures = 0 := by
        simp [StateManager.recordSuccess]
      have hss : ((applyFailures (t - 1) (StateManager.create { maxSteps := none, maxConsecutiveFailures := some t })).recordSuccess).state.shouldStop = false := by
        simp [StateManager.recordSuccess, hs1]
      have hth : ((applyFailures (t - 1) (StateManager.create { maxSteps := none, maxConsecutiveFailures := some t })).recordSuccess).maxConsecutiveFailures = t := by
        simp [StateManager.recordSuccess, c5, b4]
      rw [hcs, hss, hth] at this
      rcases this with h | ⟨h1, h2⟩
      · exact Bool.false_ne_true h
      · omega

/-- Claim C5, witness: at threshold 2, two failures stop the run with
`max_failures`, while one failure, a success, and one more failure leave
the stop flag clear. -/
theorem failure_threshold_behaviour_witness :
    ((applyFailures 2 (StateManager.create { maxSteps := none, maxConsecutiveFailures := some 2 })).state.shouldStop = true)
    ∧ ((applyFailures 2 (StateManager.create { maxSteps := none, maxConsecutiveFailures := some 2 })).getExitReason = ExitReason.max_failures)
    ∧ ((applyFailures 1 (StateManager.create { maxSteps := none, maxConsecutiveFailures := some 2 })).state.shouldStop = false)
    ∧ (((applyFailures 1 (StateManager.create { maxSteps := none, maxConsecutiveFailures := some 2 })).recordSuccess).state.consecutiveFailures = 0)
    ∧ ((applyFailures 1 ((applyFailures 1 (StateManager.create { maxSteps := none, maxConsecutiveFailures := some 2 })).recordSuccess)).state.shouldStop = false) :=
  failure_threshold_behaviour 2 (by decide)

/-- Claim C1, evaluated on the code: a run with `maxFailures = 2` whose
first two turns both raise turn-level failures ends with `stepsTaken = 2`
and `success = false` as claimed, but its `exitReason` is `success`, not
`max_failures` — `BrowserBot.run` never passes `options.maxFailures` to
the `StateManager`, whose `getExitReason()` therefore compares the 2
consecutive failures against its default threshold 3 and falls through to
the `success` default (and the result message reads
`Task completed successfully`). -/
theorem run_maxFailures_two_exits_with_success_reason :
    ((browserBotRun { maxSteps := none, maxFailures := some 2 }
        [TurnOutcome.raisesError, TurnOutcome.raisesError]).stepsTaken = 2)
    ∧ ((browserBotRun { maxSteps := none, maxFailures := some 2 }
        [TurnOutcome.raisesError, TurnOutcome.raisesError]).success = false)
    ∧ ((browserBotRun { maxSteps := none, maxFailures := some 2 }
        [TurnOutcome.raisesError, TurnOutcome.raisesError]).exitReason = ExitReason.success)
    ∧ ¬((browserBotRun { maxSteps := none, maxFailures := some 2 }
        [TurnOutcome.raisesError, TurnOutcome.raisesError]).exitReason = ExitReason.max_failures)
    ∧ ((browserBotRun { maxSteps := none, maxFailures := some 2 }
        [TurnOutcome.raisesError, TurnOutcome.raisesError]).message
          = strL "Task completed successfully") := by
  decide

/-- Claim C9, counterexample: the entry point does throw — an array
containing a nullish element hits the unguarded `item.type` access and
the TypeError escapes `trimSnapshot`. -/
theorem trimSnapshot_throws_on_nullish_item :
    trimSnapshot (SnapResponse.arr [SnapItem.nullish]) = Except.error JsError.typeError :=
  rfl

/-- Helper for claims C9 and C10: on well-formed items the push loop never
throws and is the map of the per-item transformation appended to the
accumulator. -/
theorem trimSnapshotLoop_eq_map :
    ∀ items : List SnapItem, (∀ item ∈ items, wellFormedItem item = true) →
      ∀ acc : List SnapItem,
        trimSnapshotLoop acc items = Except.ok (acc ++ items.map trimItem) := by
  intro items
  induction items with
  | nil => intro _ acc; simp [trimSnapshotLoop]
  | cons item rest ih =>
    intro hwf acc
    have hitem := hwf item (List.mem_cons_self _ _)
    have hrest : ∀ it ∈ rest, wellFormedItem it = true :=
      fun it hit => hwf it (List.mem_cons_of_mem _ hit)
    rcases item with _ | s | tag | tag
    · simp [wellFormedItem] at hitem
    · simp only [trimSnapshotLoop, trimItem, List.map_cons]
      by_cases hs : s.isEmpty
      · simp [hs, ih hrest]
      · simp [hs, ih hrest]
    · simp [wellFormedItem] at hitem
    · simp [trimSnapshotLoop, trimItem, ih hrest]

/-- Claim C9 as amended: on empty input, `null`, or input that is not an
array, the entry point returns the input unchanged without throwing; and
it never throws on an array whose elements are all well formed (no
nullish element, no text item with a truthy non-string `text`) — only
such malformed elements make it throw. -/
theorem trimSnapshot_fail_open :
    (∀ tag, trimSnapshot (SnapResponse.notArray tag) = Except.ok (SnapResponse.notArray tag))
    ∧ trimSnapshot SnapResponse.null = Except.ok SnapResponse.null
    ∧ trimSnapshot (SnapResponse.arr []) = Except.ok (SnapResponse.arr [])
    ∧ (∀ items : List SnapItem, (∀ item ∈ items, wellFormedItem item = true) →
        ∃ out, trimSnapshot (SnapResponse.arr items) = Except.ok (SnapResponse.arr out)) := by
  refine ⟨fun _ => rfl, rfl, rfl, ?_⟩
  intro items hwf
  refine ⟨items.map trimItem, ?_⟩
  show (trimSnapshotLoop [] items).map SnapResponse.arr = _
  rw [trimSnapshotLoop_eq_map items hwf []]
  rfl

/-- Claim C9, witness: a well-formed two-item array goes through without
an error. -/
theorem trimSnapshot_fail_open_witness :
    ∃ out, trimSnapshot (SnapResponse.arr [SnapItem.text (strL "abc"), SnapItem.other 3])
      = Except.ok (SnapResponse.arr out) :=
  trimSnapshot_fail_open.2.2.2 [SnapItem.text (strL "abc"), SnapItem.other 3] (by decide)

/-- Claim C10, counterexample: for the input array `[null]` the entry
point produces no output array at all — the claimed same-length output
does not exist because the loop throws. -/
theorem trimSnapshot_frame_counterexample :
    ¬∃ out : List SnapItem,
      trimSnapshot (SnapResponse.arr [SnapItem.nullish]) = Except.ok (SnapResponse.arr out) := by
  rintro ⟨out, h⟩
  rw [trimSnapshot_throws_on_nullish_item] at h
  exact Except.noConfusion h

/-- Claim C10 as amended: for every input array whose elements are all
well formed (the inputs on which the source returns at all), the output
array has the same length and order as the input; non-text items and
text items with empty text appear unchanged at their original position;
text items with non-empty text are replaced in place by a text item
holding the trimmed text. -/
theorem trimSnapshot_frame (items : List SnapItem)
    (hwf : ∀ item ∈ items, wellFormedItem item = true) :
    ∃ out, trimSnapshot (SnapResponse.arr items) = Except.ok (SnapResponse.arr out)
      ∧ out.length = items.length
      ∧ (∀ i (h1 : i < items.length) (h2 : i < out.length) tag,
          items.get ⟨i, h1⟩ = SnapItem.other tag → out.get ⟨i, h2⟩ = SnapItem.other tag)
      ∧ (∀ i (h1 : i < items.length) (h2 : i < out.length),
          items.get ⟨i, h1⟩ = SnapItem.text [] → out.get ⟨i, h2⟩ = SnapItem.text [])
      ∧ (∀ i (h1 : i < items.length) (h2 : i < out.length) (s : Str),
          items.get ⟨i, h1⟩ = SnapItem.text s → s ≠ [] →
            out.get ⟨i, h2⟩ = SnapItem.text (trimYAMLSnapshot s)) := by
  refine ⟨items.map trimItem, ?_, by simp, ?_, ?_, ?_⟩
  · show (trimSnapshotLoop [] items).map SnapResponse.arr = _
    rw [trimSnapshotLoop_eq_map items hwf []]
    rfl
  · intro i h1 h2 tag hit
    rw [List.get_map, hit]
    rfl
  · intro i h1 h2 hit
    rw [List.get_map, hit]
    rfl
  · intro i h1 h2 s hit hs
    rw [List.get_map, hit]
    simp [trimItem, hs]

/-- Claim C10, witness: instantiating the frame theorem on a concrete
well-formed two-item array. -/
theorem trimSnapshot_frame_witness :
    ∃ out, trimSnapshot (SnapResponse.arr [SnapItem.other 7, SnapItem.text []])
      = Except.ok (SnapResponse.arr out) ∧ out.length = 2 := by
  obtain ⟨out, h1, h2, h3, h4, h5⟩ :=
    trimSnapshot_frame [SnapItem.other 7, SnapItem.text []] (by decide)
  exact ⟨out, h1, h2⟩

/-- Helper for claims C7 and C8: every entry the body loop emits comes from
some input line whose trim parses to an element that passed the
interactivity filter and was formatted. -/
theorem processLines_entry_source :
    ∀ (L : List Str) (skip : Bool) (d : Nat) (f : Str),
      f ∈ processLines skip d L →
      ∃ line, line ∈ L ∧ ∃ e : YAMLElement,
        parseYAMLLine (trimStr line) = some e
        ∧ isInteractive e = true
        ∧ formatElement e = some f := by
  intro L
  induction L with
  | nil =>
    intro skip d f hf
    simp [processLines] at hf
  | cons line rest ih =>
    intro skip d f hf
    simp only [processLines] at hf
    split at hf
    · obtain ⟨l, hl, he⟩ := ih _ _ _ hf
      exact ⟨l, List.mem_cons_of_mem _ hl, he⟩
    · split at hf
      · obtain ⟨l, hl, he⟩ := ih _ _ _ hf
        exact ⟨l, List.mem_cons_of_mem _ hl, he⟩
      · split at hf
        · obtain ⟨l, hl, he⟩ := ih _ _ _ hf
          exact ⟨l, List.mem_cons_of_mem _ hl, he⟩
        · split at hf
          · obtain ⟨l, hl, he⟩ := ih _ _ _ hf
            exact ⟨l, List.mem_cons_of_mem _ hl, he⟩
          · split at hf
            · obtain ⟨l, hl, he⟩ := ih _ _ _ hf
              exact ⟨l, List.mem_cons_of_mem _ hl, he⟩
            · rename_i e hparse
              split at hf
              · rename_i hint
                split at hf
                · rename_i f2 hfmt
                  rcases List.mem_cons.mp hf with hfe | hfr
                  · subst hfe
                    exact ⟨line, List.mem_cons_self _ _, e, hparse, hint, hfmt⟩
                  · obtain ⟨l, hl, he⟩ := ih _ _ _ hfr
                    exact ⟨l, List.mem_cons_of_mem _ hl, he⟩
                · obtain ⟨l, hl, he⟩ := ih _ _ _ hf
                  exact ⟨l, List.mem_cons_of_mem _ hl, he⟩
              · obtain ⟨l, hl, he⟩ := ih _ _ _ hf
                exact ⟨l, List.mem_cons_of_mem _ hl, he⟩

/-- Helper: a formatted element necessarily has a non-empty ref. -/
theorem formatElement_ref_nonempty {e : YAMLElement} {f : Str}
    (h : formatElement e = some f) : e.ref ≠ [] := by
  intro hr
  rw [formatElement.eq_def, hr] at h
  simp at h

/-- Helper: an element that passes the interactivity filter is visible. -/
theorem isInteractive_visible {e : YAMLElement}
    (h : isInteractive e = true) : e.visible = true := by
  cases hv : e.visible
  · rw [isInteractive.eq_def, hv] at h
    simp at h
  · rfl

/-- Claim C8: every element line the compressor emits comes from a parsed
element that has a non-empty reference id and is not marked hidden. -/
theorem emitted_entries_have_ref_and_are_visible (x f : Str)
    (hf : f ∈ snapshotEntries x) :
    ∃ line, line ∈ splitLines x ∧ ∃ e : YAMLElement,
      parseYAMLLine (trimStr line) = some e
      ∧ formatElement e = some f
      ∧ e.ref ≠ []
      ∧ e.visible = true := by
  obtain ⟨line, hl, e, hparse, hint, hfmt⟩ := processLines_entry_source _ _ _ _ hf
  exact ⟨line, hl, e, hparse, hfmt, formatElement_ref_nonempty hfmt, isInteractive_visible hint⟩

/-- Claim C8, witness: the single entry emitted for a one-button snapshot
comes from a parsed, visible element with ref `e1`. -/
theorem emitted_entries_have_ref_and_are_visible_witness :
    ∃ line, line ∈ splitLines (strL "- button \"Go\" [ref=e1]") ∧ ∃ e : YAMLElement,
      parseYAMLLine (trimStr line) = some e
      ∧ formatElement e = some (strL "[e1] button \"Go\"")
      ∧ e.ref ≠ []
      ∧ e.visible = true :=
  emitted_entries_have_ref_and_are_visible (strL "- button \"Go\" [ref=e1]")
    (strL "[e1] button \"Go\"") (by decide)

set_option maxRecDepth 20000 in
/-- Claim C7, counterexample: on the one-button snapshot the second
application of the compressor is not the first's output — the emitted
entry `[e1] button "Submit"` does not re-parse under the role regex, so
the second pass drops it and re-derives the count as 0. -/
theorem compressor_idempotence_counterexample :
    ¬(trimYAMLSnapshot (trimYAMLSnapshot (strL "- button \"Submit\" [ref=e1]"))
        = trimYAMLSnapshot (strL "- button \"Submit\" [ref=e1]")) := by
  decide

/-- Helper: `splitLines` never returns the empty list. -/
theorem splitLines_ne_nil (x : Str) : splitLines x ≠ [] := by
  induction x with
  | nil => simp [splitLines]
  | cons c rest ih =>
    simp only [splitLines]
    split
    · simp
    · split
      · simp
      · simp

/-- Helper: no line produced by `splitLines` contains a newline. -/
theorem splitLines_no_newline (x : Str) :
    ∀ l ∈ splitLines x, '\n' ∉ l := by
  induction x with
  | nil =>
    intro l hl
    simp [splitLines] at hl
    subst hl
    simp
  | cons c rest ih =>
    intro l hl
    simp only [splitLines] at hl
    by_cases hc : c = '\n'
    · rw [if_pos hc] at hl
      rcases List.mem_cons.mp hl with h | h
      · subst h; simp
      · exact ih l h
    · rw [if_neg hc] at hl
      rcases hsp : splitLines rest with _ | ⟨l0, ls⟩
      · exact absurd hsp (splitLines_ne_nil rest)
      · rw [hsp] at hl
        rcases List.mem_cons.mp hl with h | h
        · subst h
          intro hmem
          rcases List.mem_cons.mp hmem with h2 | h2
          · exact hc h2.symm
          · exact ih l0 (by rw [hsp]; exact List.mem_cons_self _ _) h2
        · exact ih l (by rw [hsp]; exact List.mem_cons_of_mem _ h)

/-- Helper: a newline-free string splits to the single line it is. -/
theorem splitLines_single (l : Str) (h : '\n' ∉ l) : splitLines l = [l] := by
  induction l with
  | nil => rfl
  | cons c rest ih =>
    have hc : ¬(c = '\n') := fun hcc => h (by rw [hcc]; exact List.mem_cons_self _ _)
    have hrest : '\n' ∉ rest := fun hm => h (List.mem_cons_of_mem _ hm)
    simp only [splitLines, if_neg hc, ih hrest]

/-- Helper: splitting `l ++ '\n' :: s` with `l` newline-free yields `l`
followed by the split of `s`. -/
theorem splitLines_append (l s : Str) (h : '\n' ∉ l) :
    splitLines (l ++ '\n' :: s) = l :: splitLines s := by
  induction l with
  | nil =>
    simp [splitLines]
  | cons c rest ih =>
    have hc : ¬(c = '\n') := fun hcc => h (by rw [hcc]; exact List.mem_cons_self _ _)
    have hrest : '\n' ∉ rest := fun hm => h (List.mem_cons_of_mem _ hm)
    simp only [List.cons_append, splitLines, if_neg hc, List.append_eq, ih hrest]

/-- Helper: joining newline-free lines with newlines then splitting gives
back the lines. -/
theorem splitLines_joinWith :
    ∀ L : List Str, L ≠ [] → (∀ l ∈ L, '\n' ∉ l) →
      splitLines (joinWith (strL "\n") L) = L := by
  intro L
  induction L with
  | nil => intro h _; exact absurd rfl h
  | cons l rest ih =>
    intro _ hnl
    rcases rest with _ | ⟨l2, rest2⟩
    · exact splitLines_single l (hnl l (List.mem_cons_self _ _))
    · have hsep : strL "\n" = ['\n'] := rfl
      have hj : joinWith (strL "\n") (l :: l2 :: rest2)
          = l ++ '\n' :: joinWith (strL "\n") (l2 :: rest2) := by
        rw [joinWith, hsep, List.append_assoc]
        rfl
      rw [hj, splitLines_append l _ (hnl l (List.mem_cons_self _ _)),
        ih (by simp) (fun a ha => hnl a (List.mem_cons_of_mem _ ha))]

/-- Helper: dropping trailing whitespace keeps a subset of the characters. -/
theorem dropTrailingWS_subset (s : Str) : ∀ c ∈ dropTrailingWS s, c ∈ s := by
  induction s with
  | nil => intro c hc; simp [dropTrailingWS] at hc
  | cons a rest ih =>
    intro c hc
    simp only [dropTrailingWS] at hc
    split at hc
    · simp at hc
    · rcases List.mem_cons.mp hc with h | h
      · subst h; exact List.mem_cons_self _ _
      · exact List.mem_cons_of_mem _ (ih c h)

/-- Helper: trimming keeps a subset of the characters. -/
theorem trimStr_subset (s : Str) : ∀ c ∈ trimStr s, c ∈ s := by
  intro c hc
  exact (List.dropWhile_sublist jsWS).subset (dropTrailingWS_subset _ c hc)

/-- Helper: `upToFirst` keeps a subset of the characters. -/
theorem upToFirst_subset (pat : Str) (s : Str) : ∀ c ∈ upToFirst pat s, c ∈ s := by
  induction s with
  | nil => intro c hc; simp [upToFirst] at hc
  | cons a rest ih =>
    intro c hc
    simp only [upToFirst] at hc
    split at hc
    · simp at hc
    · rcases List.mem_cons.mp hc with h | h
      · subst h; exact List.mem_cons_self _ _
      · exact List.mem_cons_of_mem _ (ih c h)

/-- Helper: `afterFirst` returns a suffix-drop, a subset of the
characters. -/
theorem afterFirst_subset (pat : Str) :
    ∀ (s r : Str), afterFirst pat s = some r → ∀ c ∈ r, c ∈ s := by
  intro s
  induction s with
  | nil => intro r hr; simp [afterFirst] at hr
  | cons a rest ih =>
    intro r hr c hc
    simp only [afterFirst] at hr
    split at hr
    · cases hr
      exact List.drop_subset _ _ hc
    · exact List.mem_cons_of_mem _ (ih r hr c hc)

/-- Helper: the extracted header segment keeps a subset of the line's
characters. -/
theorem part1Trimmed_subset (pat line : Str) :
    ∀ c ∈ part1Trimmed pat line, c ∈ line := by
  intro c hc
  unfold part1Trimmed at hc
  split at hc
  · rename_i suffix hsuf
    exact afterFirst_subset pat line suffix hsuf c
      (upToFirst_subset pat suffix c (trimStr_subset _ c hc))
  · simp at hc

/-- Helper: the role capture keeps a subset of the line's characters. -/
theorem parseRole_subset (s w : Str) (h : parseRole s = some w) :
    ∀ c ∈ w, c ∈ s := by
  intro c hc
  rw [parseRole.eq_def] at h
  rcases s with _ | ⟨a, rest⟩
  · simp at h
  · simp only at h
    split at h
    · rcases rest with _ | ⟨b, rest2⟩
      · simp at h
      · simp only at h
        split at h
        · split at h
          · simp at h
          · cases h
            exact List.mem_cons_of_mem _
              ((List.dropWhile_sublist _).subset ((List.takeWhile_sublist _).subset hc))
        · simp at h
    · simp at h

/-- Helper: the quoted-name capture keeps a subset of the characters. -/
theorem findQuoted_subset :
    ∀ (s r : Str), findQuoted s = some r → ∀ c ∈ r, c ∈ s := by
  intro s
  induction s with
  | nil => intro r hr; simp [findQuoted] at hr
  | cons a rest ih =>
    intro r hr c hc
    simp only [findQuoted] at hr
    split at hr
    · split at hr
      · cases hr
        exact List.mem_cons_of_mem _ ((List.takeWhile_sublist _).subset hc)
      · exact List.mem_cons_of_mem _ (ih r hr c hc)
    · exact List.mem_cons_of_mem _ (ih r hr c hc)

/-- Helper: the reference-id capture keeps a subset of the characters. -/
theorem findRef_subset :
    ∀ (s r : Str), findRef s = some r → ∀ c ∈ r, c ∈ s := by
  intro s
  induction s with
  | nil => intro r hr; simp [findRef] at hr
  | cons a rest ih =>
    intro r hr c hc
    simp only [findRef] at hr
    split at hr
    · split at hr
      · cases hr
        exact List.drop_subset _ _ ((List.takeWhile_sublist _).subset hc)
      · exact List.mem_cons_of_mem _ (ih r hr c hc)
    · exact List.mem_cons_of_mem _ (ih r hr c hc)

/-- Helper: the target-url capture keeps a subset of the characters. -/
theorem findUrl_subset :
    ∀ (s r : Str), findUrl s = some r → ∀ c ∈ r, c ∈ s := by
  intro s
  induction s with
  | nil => intro r hr; simp [findUrl] at hr
  | cons a rest ih =>
    intro r hr c hc
    simp only [findUrl] at hr
    split at hr
    · split at hr
      · cases hr
        have h1 := (List.takeWhile_sublist _).subset hc
        have h2 : c ∈ ((a :: rest).drop 5).dropWhile jsWS := by
          unfold urlTail at h1
          split at h1
          · exact List.drop_subset _ _ h1
          · exact h1
        exact List.drop_subset _ _ ((List.dropWhile_sublist _).subset h2)
      · exact List.mem_cons_of_mem _ (ih r hr c hc)
    · exact List.mem_cons_of_mem _ (ih r hr c hc)

/-- Helper: every capture of a parsed element keeps a subset of the line's
characters. -/
theorem parseYAMLLine_fields_subset (t : Str) (e : YAMLElement)
    (h : parseYAMLLine t = some e) :
    (∀ c ∈ e.role, c ∈ t) ∧ (∀ c ∈ e.name, c ∈ t)
      ∧ (∀ c ∈ e.ref, c ∈ t) ∧ (∀ c ∈ e.url, c ∈ t) := by
  unfold parseYAMLLine at h
  split at h
  · simp at h
  · rename_i role hrole
    cases h
    refine ⟨parseRole_subset t role hrole, ?_, ?_, ?_⟩
    · show ∀ c ∈ (findQuoted t).getD [], c ∈ t
      rcases hq : findQuoted t with _ | r2
      · simp
      · simp only [Option.getD_some]
        exact findQuoted_subset t r2 hq
    · show ∀ c ∈ (findRef t).getD [], c ∈ t
      rcases hq : findRef t with _ | r2
      · simp
      · simp only [Option.getD_some]
        exact findRef_subset t r2 hq
    · show ∀ c ∈ (findUrl t).getD [], c ∈ t
      rcases hq : findUrl t with _ | r2
      · simp
      · simp only [Option.getD_some]
        exact findUrl_subset t r2 hq

/-- Helper: a join whose first part starts with `c` starts with `c`. -/
theorem joinWith_cons_head (sep p : Str) (c : Char) (parts : List Str) :
    ∃ t2, joinWith sep ((c :: p) :: parts) = c :: t2 := by
  rcases parts with _ | ⟨q, rest⟩
  · exact ⟨p, rfl⟩
  · exact ⟨p ++ sep ++ joinWith sep (q :: rest), by simp [joinWith]⟩

/-- Helper: a formatted entry starts with an opening bracket. -/
theorem formatElement_head (e : YAMLElement) (f : Str)
    (h : formatElement e = some f) : ∃ t2, f = '[' :: t2 := by
  unfold formatElement at h
  split at h
  · simp at h
  · cases h
    simp only [List.cons_append, List.nil_append]
    have hhd : strL "[" ++ e.ref ++ strL "]" = '[' :: (e.ref ++ strL "]") := rfl
    rw [hhd]
    exact joinWith_cons_head _ _ _ _

/-- Helper: a character of a joined list is in the separator or in one of
the parts. -/
theorem joinWith_mem (sep : Str) :
    ∀ (parts : List Str) (c : Char), c ∈ joinWith sep parts →
      c ∈ sep ∨ ∃ p, p ∈ parts ∧ c ∈ p := by
  intro parts
  induction parts with
  | nil => intro c hc; simp [joinWith] at hc
  | cons p rest ih =>
    intro c hc
    rcases rest with _ | ⟨q, rest2⟩
    · exact Or.inr ⟨p, List.mem_cons_self _ _, hc⟩
    · simp only [joinWith] at hc
      rcases List.mem_append.mp hc with h | h
      · rcases List.mem_append.mp h with h2 | h2
        · exact Or.inr ⟨p, List.mem_cons_self _ _, h2⟩
        · exact Or.inl h2
      · rcases ih c h with h2 | ⟨p2, hp2, hc2⟩
        · exact Or.inl h2
        · exact Or.inr ⟨p2, List.mem_cons_of_mem _ hp2, hc2⟩

/-- Helper: membership in a conditional singleton list. -/
theorem mem_ite_nil {α : Type} {c : Prop} [Decidable c] {l : List α} {p : α}
    (h : p ∈ (if c then l else [])) : c ∧ p ∈ l := by
  split at h
  · rename_i hc; exact ⟨hc, h⟩
  · simp at h

/-- Helper: every character of a formatted entry is a character of one of
the element's fields or one of the five fixed separator characters. -/
theorem formatElement_chars (e : YAMLElement) (f : Str)
    (h : formatElement e = some f) :
    ∀ c ∈ f, c ∈ e.ref ∨ c ∈ e.role ∨ c ∈ e.name ∨ c ∈ e.url ∨ c ∈ strL "[] \"→ " := by
  intro c hc
  unfold formatElement at h
  split at h
  · simp at h
  · cases h
    rcases joinWith_mem _ _ c hc with hsep | ⟨p, hp, hcp⟩
    · have hs : strL " " = [' '] := rfl
      rw [hs] at hsep
      simp at hsep
      subst hsep
      exact Or.inr (Or.inr (Or.inr (Or.inr (by decide))))
    · rcases List.mem_append.mp hp with hp1 | hpu
      · rcases List.mem_append.mp hp1 with hp2 | hpn
        · rcases List.mem_append.mp hp2 with hp0 | hpr
          · have hpe : p = strL "[" ++ e.ref ++ strL "]" := by
              simpa using hp0
            subst hpe
            rcases List.mem_append.mp hcp with h1 | h1
            · rcases List.mem_append.mp h1 with h2 | h2
              · have : c = '[' := by simpa [strL] using h2
                subst this
                exact Or.inr (Or.inr (Or.inr (Or.inr (by decide))))
              · exact Or.inl h2
            · have : c = ']' := by simpa [strL] using h1
              subst this
              exact Or.inr (Or.inr (Or.inr (Or.inr (by decide))))
          · obtain ⟨_, hmem⟩ := mem_ite_nil hpr
            have hpe : p = e.role := by simpa using hmem
            subst hpe
            exact Or.inr (Or.inl hcp)
        · obtain ⟨_, hmem⟩ := mem_ite_nil hpn
          have hpe : p = strL "\"" ++ e.name ++ strL "\"" := by simpa using hmem
          subst hpe
          rcases List.mem_append.mp hcp with h1 | h1
          · rcases List.mem_append.mp h1 with h2 | h2
            · have : c = '"' := by simpa [strL] using h2
              subst this
              exact Or.inr (Or.inr (Or.inr (Or.inr (by decide))))
            · exact Or.inr (Or.inr (Or.inl h2))
          · have : c = '"' := by simpa [strL] using h1
            subst this
            exact Or.inr (Or.inr (Or.inr (Or.inr (by decide))))
      · obtain ⟨_, hmem⟩ := mem_ite_nil hpu
        have hpe : p = strL "→ " ++ e.url := by simpa using hmem
        subst hpe
        rcases List.mem_append.mp hcp with h1 | h1
        · have : c = '→' ∨ c = ' ' := by simpa [strL] using h1
          rcases this with h2 | h2 <;> subst h2 <;>
            exact Or.inr (Or.inr (Or.inr (Or.inr (by decide))))
        · exact Or.inr (Or.inr (Or.inr (Or.inl h1)))

/-- Helper: every entry the body loop emits is newline-free. -/
theorem snapshotEntries_no_newline (x f : Str) (hf : f ∈ snapshotEntries x) :
    '\n' ∉ f := by
  obtain ⟨line, hline, e, hparse, _, hfmt⟩ := processLines_entry_source _ _ _ _ hf
  intro hnl
  have hline_nn : '\n' ∉ line := splitLines_no_newline x line hline
  obtain ⟨hr, hn, hrf, hu⟩ := parseYAMLLine_fields_subset _ _ hparse
  have htrim := trimStr_subset line
  rcases formatElement_chars e f hfmt '\n' hnl with h | h | h | h | h
  · exact hline_nn (htrim _ (hrf _ h))
  · exact hline_nn (htrim _ (hr _ h))
  · exact hline_nn (htrim _ (hn _ h))
  · exact hline_nn (htrim _ (hu _ h))
  · exact absurd h (by decide)

/-- Helper: digit characters are never a newline. -/
theorem digitChar_ne_newline (d : Nat) : ¬(digitChar d = '\n') := by
  unfold digitChar
  split_ifs <;> decide

/-- Helper: the characters accumulated by the decimal renderer are the
accumulator's or digit characters. -/
theorem natToStrGo_mem :
    ∀ (fuel n : Nat) (acc : Str) (c : Char), c ∈ natToStrGo fuel n acc →
      c ∈ acc ∨ ∃ d, c = digitChar d := by
  intro fuel
  induction fuel with
  | zero =>
    intro n acc c hc
    simp only [natToStrGo] at hc
    exact Or.inl hc
  | succ fuel ih =>
    intro n acc c hc
    simp only [natToStrGo] at hc
    split at hc
    · rcases List.mem_cons.mp hc with h | h
      · exact Or.inr ⟨n, h⟩
      · exact Or.inl h
    · rcases ih _ _ c hc with h | h
      · rcases List.mem_cons.mp h with h2 | h2
        · exact Or.inr ⟨n % 10, h2⟩
        · exact Or.inl h2
      · exact Or.inr h

/-- Helper: the decimal rendering of a count is newline-free. -/
theorem natToStr_no_newline (n : Nat) : '\n' ∉ natToStr n := by
  intro h
  rcases natToStrGo_mem _ _ _ _ h with h2 | ⟨d, hd⟩
  · simp at h2
  · exact digitChar_ne_newline d hd.symm

/-- Helper: each header returned by the extraction loop is the initial
accumulator or the trimmed second split-segment of some scanned line. -/
theorem extractHeaders_source :
    ∀ (L : List Str) (acc : Str × Str),
      ((extractHeaders L acc).1 = acc.1
        ∨ ∃ line, line ∈ L ∧ (extractHeaders L acc).1 = part1Trimmed (strL "URL:") line)
      ∧ ((extractHeaders L acc).2 = acc.2
        ∨ ∃ line, line ∈ L ∧ (extractHeaders L acc).2 = part1Trimmed (strL "Title:") line) := by
  intro L
  induction L with
  | nil => intro acc; exact ⟨Or.inl rfl, Or.inl rfl⟩
  | cons line rest ih =>
    intro acc
    simp only [extractHeaders]
    split
    · rcases ih (part1Trimmed (strL "URL:") line, acc.2) with ⟨h1, h2⟩
      constructor
      · rcases h1 with h | ⟨l, hl, he⟩
        · exact Or.inr ⟨line, List.mem_cons_self _ _, h⟩
        · exact Or.inr ⟨l, List.mem_cons_of_mem _ hl, he⟩
      · rcases h2 with h | ⟨l, hl, he⟩
        · exact Or.inl h
        · exact Or.inr ⟨l, List.mem_cons_of_mem _ hl, he⟩
    · split
      · rcases ih (acc.1, part1Trimmed (strL "Title:") line) with ⟨h1, h2⟩
        constructor
        · rcases h1 with h | ⟨l, hl, he⟩
          · exact Or.inl h
          · exact Or.inr ⟨l, List.mem_cons_of_mem _ hl, he⟩
        · rcases h2 with h | ⟨l, hl, he⟩
          · exact Or.inr ⟨line, List.mem_cons_self _ _, h⟩
          · exact Or.inr ⟨l, List.mem_cons_of_mem _ hl, he⟩
      · rcases ih acc with ⟨h1, h2⟩
        constructor
        · rcases h1 with h | ⟨l, hl, he⟩
          · exact Or.inl h
          · exact Or.inr ⟨l, List.mem_cons_of_mem _ hl, he⟩
        · rcases h2 with h | ⟨l, hl, he⟩
          · exact Or.inl h
          · exact Or.inr ⟨l, List.mem_cons_of_mem _ hl, he⟩

/-- Helper: the extracted url header is newline-free. -/
theorem header_url_no_newline (x : Str) :
    '\n' ∉ (extractHeaders ((splitLines x).take 10) ([], [])).1 := by
  intro h
  rcases (extractHeaders_source ((splitLines x).take 10) ([], [])).1 with he | ⟨line, hl, he⟩
  · rw [he] at h
    simp at h
  · rw [he] at h
    exact splitLines_no_newline x line (List.take_subset _ _ hl)
      (part1Trimmed_subset _ line '\n' h)

/-- Helper: the extracted title header is newline-free. -/
theorem header_title_no_newline (x : Str) :
    '\n' ∉ (extractHeaders ((splitLines x).take 10) ([], [])).2 := by
  intro h
  rcases (extractHeaders_source ((splitLines x).take 10) ([], [])).2 with he | ⟨line, hl, he⟩
  · rw [he] at h
    simp at h
  · rw [he] at h
    exact splitLines_no_newline x line (List.take_subset _ _ hl)
      (part1Trimmed_subset _ line '\n' h)

/-- Helper: every output line before the count line is newline-free. -/
theorem outputPrefix_no_newline (x : Str) :
    ∀ l ∈ outputPrefix x, '\n' ∉ l := by
  intro l hl
  simp only [outputPrefix, List.append_assoc, List.mem_append, List.mem_cons,
    List.mem_singleton] at hl
  rcases hl with h | h | (h | h | h | h) | h | (h | h)
  · obtain ⟨_, hmem⟩ := mem_ite_nil h
    have hle : l = strL "URL: " ++ (extractHeaders ((splitLines x).take 10) ([], [])).1 := by
      simpa using hmem
    subst hle
    intro hc
    rcases List.mem_append.mp hc with h2 | h2
    · exact absurd h2 (by decide)
    · exact header_url_no_newline x h2
  · obtain ⟨_, hmem⟩ := mem_ite_nil h
    have hle : l = strL "Title: " ++ (extractHeaders ((splitLines x).take 10) ([], [])).2 := by
      simpa using hmem
    subst hle
    intro hc
    rcases List.mem_append.mp hc with h2 | h2
    · exact absurd h2 (by decide)
    · exact header_title_no_newline x h2
  · subst h; simp
  · subst h; decide
  · subst h; simp
  · simp at h
  · exact snapshotEntries_no_newline x l h
  · subst h; simp
  · simp at h

/-- Helper: trimming a string whose head is not whitespace keeps the
head. -/
theorem trimStr_cons_of_not_ws (c : Char) (t : Str) (h : jsWS c = false) :
    trimStr (c :: t) = c :: dropTrailingWS t := by
  unfold trimStr
  rw [List.dropWhile_cons]
  simp [h, dropTrailingWS]

/-- Helper: the empty line does not parse as an element. -/
theorem parseYAMLLine_nil : parseYAMLLine [] = none := rfl

/-- Helper: a line that does not start with a dash does not parse as an
element. -/
theorem parseYAMLLine_cons_of_ne (c : Char) (t : Str) (h : ¬(c = '-')) :
    parseYAMLLine (c :: t) = none := by
  rw [parseYAMLLine.eq_def, parseRole.eq_def]
  simp [h]

/-- Helper: a line that starts (after trimming) with a non-whitespace,
non-dash character is inert for the body loop's parser. -/
theorem inert_of_head (c : Char) (t : Str) (hws : jsWS c = false) (hd : ¬(c = '-')) :
    parseYAMLLine (trimStr (c :: t)) = none := by
  rw [trimStr_cons_of_not_ws c t hws]
  exact parseYAMLLine_cons_of_ne c _ hd

/-- Helper: on a list of lines none of which parses as an element, the
body loop emits nothing, whatever the skip-section state. -/
theorem processLines_nil_of_inert :
    ∀ (L : List Str), (∀ l ∈ L, parseYAMLLine (trimStr l) = none) →
      ∀ (skip : Bool) (d : Nat), processLines skip d L = [] := by
  intro L
  induction L with
  | nil => intro _ skip d; simp [processLines]
  | cons line rest ih =>
    intro h skip d
    have hline := h line (List.mem_cons_self _ _)
    have hrest : ∀ l ∈ rest, parseYAMLLine (trimStr l) = none :=
      fun l hl => h l (List.mem_cons_of_mem _ hl)
    simp only [processLines]
    split
    · exact ih hrest _ _
    · split
      · exact ih hrest _ _
      · split
        · exact ih hrest _ _
        · split
          · exact ih hrest _ _
          · rw [hline]
            exact ih hrest _ _

/-- Helper: every emitted entry starts with an opening bracket. -/
theorem snapshotEntries_head (x f : Str) (hf : f ∈ snapshotEntries x) :
    ∃ t2, f = '[' :: t2 := by
  obtain ⟨_, _, e, _, _, hfmt⟩ := processLines_entry_source _ _ _ _ hf
  exact formatElement_head e f hfmt

/-- Helper: every output line before the count line is inert for the body
loop's parser: blank, or starting with `U`, `T`, `I` or `[`, never with a
dash. -/
theorem outputPrefix_inert (x : Str) :
    ∀ l ∈ outputPrefix x, parseYAMLLine (trimStr l) = none := by
  intro l hl
  simp only [outputPrefix, List.append_assoc, List.mem_append, List.mem_cons,
    List.mem_singleton] at hl
  rcases hl with h | h | (h | h | h | h) | h | (h | h)
  · obtain ⟨_, hmem⟩ := mem_ite_nil h
    have hle : l = strL "URL: " ++ (extractHeaders ((splitLines x).take 10) ([], [])).1 := by
      simpa using hmem
    subst hle
    exact inert_of_head 'U' _ (by decide) (by decide)
  · obtain ⟨_, hmem⟩ := mem_ite_nil h
    have hle : l = strL "Title: " ++ (extractHeaders ((splitLines x).take 10) ([], [])).2 := by
      simpa using hmem
    subst hle
    exact inert_of_head 'T' _ (by decide) (by decide)
  · subst h; rfl
  · subst h
    exact inert_of_head 'I' _ (by decide) (by decide)
  · subst h; rfl
  · simp at h
  · obtain ⟨t2, ht2⟩ := snapshotEntries_head x l h
    subst ht2
    exact inert_of_head '[' _ (by decide) (by decide)
  · subst h; rfl
  · simp at h

/-- Helper: splitting the compressor's output recovers exactly its output
lines (header, banner, entries, blanks, count line). -/
theorem trimYAMLSnapshot_lines (x : Str) :
    splitLines (trimYAMLSnapshot x) =
      outputPrefix x ++ [strL "Total interactive elements: "
        ++ natToStr ((List.filter (fun l => headIs '[' l) (outputPrefix x)).length)] := by
  simp only [trimYAMLSnapshot]
  apply splitLines_joinWith
  · simp
  · intro l hl
    rcases List.mem_append.mp hl with h | h
    · exact outputPrefix_no_newline x l h
    · have hle : l = strL "Total interactive elements: "
          ++ natToStr ((List.filter (fun l2 => headIs '[' l2) (outputPrefix x)).length) := by
        simpa using h
      subst hle
      intro hc
      rcases List.mem_append.mp hc with h2 | h2
      · exact absurd h2 (by decide)
      · exact natToStr_no_newline _ h2

/-- Claim C7 as amended: the compressor is not idempotent on its own
output — a second application emits no element entries at all, because
the entry format `[ref] role "name"` does not re-parse under the body
loop's role regex; every line of a compressor output (headers, banner,
blanks, entries, count line) is inert on a second pass. -/
theorem compressor_second_pass_emits_no_entries (x : Str) :
    snapshotEntries (trimYAMLSnapshot x) = [] := by
  unfold snapshotEntries
  rw [trimYAMLSnapshot_lines x]
  apply processLines_nil_of_inert
  intro l hl
  rcases List.mem_append.mp hl with h | h
  · exact outputPrefix_inert x l h
  · have hle : l = strL "Total interactive elements: "
        ++ natToStr ((List.filter (fun l2 => headIs '[' l2) (outputPrefix x)).length) := by
      simpa using h
    subst hle
    exact inert_of_head 'T' _ (by decide) (by decide)
